import Mathlib

/-!
Shallow embedding of the lp-qualifiers-scraper repository (file
`full-script-resumable.js`, mirrored in part by `scrapeLP.js`).

External effects are made explicit:
* remote log queries, `totalSupply`, `balanceOf` and JSON parsing are
  oracles collected in a `World` structure;
* `balanceOf` is an oracle indexed by the attempt number, so that the
  retry loop can observe a different outcome on each attempt;
* `sleep` calls are not performed; the retry wrapper instead returns the
  number of sleeps it would have performed;
* the CSV file and the checkpoint file are modelled as `Option String`
  (`none` = file absent), and the run state records call traces
  (valuations, holder queries, sink calls, logged errors) so that
  theorems can speak about which work was performed.

JavaScript floating-point numbers (`parseFloat(formatUnits(bn, d))`,
products, threshold comparisons) are modelled as exact rationals: the
normalized token amount is `bn / 10 ^ d : ℚ`.
-/

/-! ## Definitions -/

/-- A JavaScript error value; the retry logic inspects its `code`. -/
structure JsError where
  code : String
deriving DecidableEq, Repr

/-- The test `error.code === 'ETIMEDOUT' || error.code === 'TIMEOUT'`
from `fetchBalanceWithRetries`. -/
def isTimeoutError (e : JsError) : Bool :=
  e.code == "ETIMEDOUT" || e.code == "TIMEOUT"

/-- Outcome of `fetchBalanceWithRetries`: a returned balance, a thrown
error, or the implicit `undefined` returned when the loop body never
runs (only possible when `retries = 0`). -/
inductive FetchResult (B : Type) where
  | ok (b : B)
  | err (e : JsError)
  | undef
deriving DecidableEq, Repr

/-- Loop of `fetchBalanceWithRetries`.  `rem` is the number of loop
iterations still allowed, kept equal to `retries - attempt + 1` by the
top-level call, so the guard `rem = 0` is the loop condition
`attempt ≤ retries` failing.  The second component counts the `sleep`
calls performed. -/
def fbwrGo (op : ℕ → Except JsError ℕ) (retries : ℕ) :
    ℕ → ℕ → FetchResult ℕ × ℕ
  | 0, _ => (FetchResult.undef, 0)
  | rem + 1, attempt =>
    match op attempt with
    | Except.ok balanceBN => (FetchResult.ok balanceBN, 0)
    | Except.error e =>
      if isTimeoutError e then
        if attempt < retries then
          let r := fbwrGo op retries rem (attempt + 1)
          (r.1, r.2 + 1)
        else (FetchResult.err e, 0)
      else (FetchResult.err e, 0)

/-- `fetchBalanceWithRetries`: attempts `op` for attempts `1..retries`,
sleeping and retrying on timeout-class errors, rethrowing anything else
immediately; returns the outcome and the number of sleeps. -/
def fetchBalanceWithRetries (op : ℕ → Except JsError ℕ) (retries : ℕ) :
    FetchResult ℕ × ℕ :=
  fbwrGo op retries retries 1

/-- Loop of `queryFilterPaginated`.  `q s e` is the outcome of
`contract.queryFilter(filter, s, e)` (`none` = the call threw).  The
`fuel` argument bounds the iteration count; the top-level call passes
`toBlock + 1 - fromBlock`, which suffices whenever `batchSize ≥ 1`
since each iteration advances `current` by `batchSize`.  (For
`batchSize = 0` the source loop diverges; every claim assumes a
positive batch size.)  Returns the aggregated events together with the
trace of issued queries, one `(start, end)` pair per
`contract.queryFilter` call. -/
def qfpGo {E : Type} (q : ℕ → ℕ → Option (List E)) (toBlock batchSize : ℕ) :
    ℕ → ℕ → List E × List (ℕ × ℕ)
  | 0, _ => ([], [])
  | fuel + 1, current =>
    if current ≤ toBlock then
      let endB := min (current + batchSize - 1) toBlock
      let rest := qfpGo q toBlock batchSize fuel (current + batchSize)
      ((q current endB).getD [] ++ rest.1, (current, endB) :: rest.2)
    else ([], [])

/-- `queryFilterPaginated`: paginates over `[fromBlock, toBlock]` in
steps of `batchSize`, issuing one query per batch; a failed batch is
logged and contributes no events. -/
def queryFilterPaginated {E : Type} (q : ℕ → ℕ → Option (List E))
    (fromBlock toBlock batchSize : ℕ) : List E × List (ℕ × ℕ) :=
  qfpGo q toBlock batchSize (toBlock + 1 - fromBlock) fromBlock

/-- `[...new Set(l)]` in JavaScript: removes duplicates keeping the
first occurrence of each element, in insertion order. -/
def jsSetDedup {α : Type} [DecidableEq α] (l : List α) : List α :=
  l.foldl (fun acc a => if a ∈ acc then acc else acc ++ [a]) []

/-- A decoded `PairCreated(token0, token1, pair, uint)` event. -/
structure PairCreatedEvent where
  token0 : String
  token1 : String
  pair : String
deriving DecidableEq, Repr

/-- A decoded `Transfer(from, to, value)` event (as returned by the
mint filter `Transfer(ZeroAddress, null)`). -/
structure TransferEvent where
  fromAddr : String
  toAddr : String
  value : ℕ
deriving DecidableEq, Repr

/-- The external collaborators of one run, as oracles. -/
structure World where
  /-- `provider.getBlockNumber()`. -/
  latestBlock : ℕ
  /-- `factoryContract.queryFilter(PairCreated, s, e)`; `none` = throw. -/
  pairLogs : ℕ → ℕ → Option (List PairCreatedEvent)
  /-- `lpContract.queryFilter(Transfer(ZeroAddress, null), s, e)` for a
  given LP address; `none` = throw. -/
  transferLogs : String → ℕ → ℕ → Option (List TransferEvent)
  /-- `lpContract.totalSupply()` for a given LP address, as a raw
  big-number amount; `none` = throw. -/
  totalSupply : String → Option ℕ
  /-- `lpContract.balanceOf(addr)` for a given LP address, holder
  address and attempt number, as a raw big-number amount. -/
  balanceOp : String → String → ℕ → Except JsError ℕ
  /-- `JSON.parse` on the checkpoint file's text; `none` = throw. -/
  parseJson : String → Option (List String)
  /-- An unhandled exception raised while processing a given pool
  inside the per-pool `try` block of `main` (e.g. a file-system write
  failure), thrown before the checkpoint update; `none` = no such
  error.  All failures of the other oracles are already absorbed
  inside the individual functions. -/
  unhandled : String → Option JsError

/-- `getLPPairAddresses`: unique pool addresses from the factory's
`PairCreated` events over the block range. -/
def getLPPairAddresses (w : World) (fromBlock toBlock batchSize : ℕ) :
    List String :=
  let logs := (queryFilterPaginated w.pairLogs fromBlock toBlock batchSize).1
  jsSetDedup (logs.map (fun log => log.pair))

/-- `getLPHolders`: unique recipients of mint events of a given LP
token over the block range. -/
def getLPHolders (w : World) (lpAddress : String)
    (fromBlock toBlock batchSize : ℕ) : List String :=
  let logs :=
    (queryFilterPaginated (w.transferLogs lpAddress) fromBlock toBlock
      batchSize).1
  jsSetDedup (logs.map (fun log => log.toAddr))

/-- `getLPTokenUSDValue`: dummy valuation, a constant 5 USD per token. -/
def getLPTokenUSDValue (_lpAddress : String) : ℚ := 5

/-- `getLiquidityPoolValue`: `totalSupply` normalized by `decimals`,
times the USD value per token; a failed read is caught and yields 0. -/
def getLiquidityPoolValue (w : World) (lpAddress : String)
    (decimals : ℕ := 18) : ℚ :=
  match w.totalSupply lpAddress with
  | some totalSupplyBN =>
    let totalSupply : ℚ := (totalSupplyBN : ℚ) / 10 ^ decimals
    totalSupply * getLPTokenUSDValue lpAddress
  | none => 0

/-- One qualifying output record. -/
structure QRecord where
  lpAddress : String
  holderAddress : String
  balance : ℚ
  holdingValue : ℚ
deriving DecidableEq, Repr

/-- Loop of `checkLPHolderValue`, with the accumulated
`qualifyingHolders` array made explicit. -/
def chvGo (balOp : String → ℕ → Except JsError ℕ) (lpAddress : String)
    (lpTokenUSDValue : ℚ) (decimals : ℕ) (acc : List QRecord) :
    List String → List QRecord
  | [] => acc
  | addr :: rest =>
    match (fetchBalanceWithRetries (balOp addr) 3).1 with
    | FetchResult.ok balanceBN =>
      let balance : ℚ := (balanceBN : ℚ) / 10 ^ decimals
      let holdingValue := balance * lpTokenUSDValue
      if 5000 ≤ holdingValue then
        chvGo balOp lpAddress lpTokenUSDValue decimals
          (acc ++ [⟨lpAddress, addr, balance, holdingValue⟩]) rest
      else chvGo balOp lpAddress lpTokenUSDValue decimals acc rest
    | _ => chvGo balOp lpAddress lpTokenUSDValue decimals acc rest

/-- `checkLPHolderValue`: reads each holder's balance with 3 retry
attempts, keeps the holders whose holding value is at least 5000 USD;
a holder whose read throws is skipped. -/
def checkLPHolderValue (balOp : String → ℕ → Except JsError ℕ)
    (lpAddress : String) (holderAddresses : List String)
    (lpTokenUSDValue : ℚ) (decimals : ℕ := 18) : List QRecord :=
  chvGo balOp lpAddress lpTokenUSDValue decimals [] holderAddresses

/-- The CSV header row written on first use of the output file. -/
def CSV_HEADER : String := "lpAddress,holderAddress,balance,holdingValue\n"

/-- One CSV data row (number formatting is abstracted by `toString` on
the exact rationals; no claim depends on the decimal rendering). -/
def csvRow (r : QRecord) : String :=
  r.lpAddress ++ "," ++ r.holderAddress ++ "," ++ toString r.balance
    ++ "," ++ toString r.holdingValue

/-- `appendRecordsToCSV`: writes the header first when the file does
not exist, then appends the joined rows followed by a newline. -/
def appendRecordsToCSV (records : List QRecord) (file : Option String) :
    Option String :=
  let base := match file with
    | none => CSV_HEADER
    | some content => content
  let rows := String.intercalate "\n" (records.map csvRow) ++ "\n"
  some (base ++ rows)

/-- `loadCheckpoint`: the parsed list when the file exists and parses;
the empty list otherwise.  The boolean records whether the
parse-failure warning was logged.  The function is total: loading is
never fatal. -/
def loadCheckpoint (file : Option String)
    (parseJson : String → Option (List String)) : List String × Bool :=
  match file with
  | some data =>
    match parseJson data with
    | some checkpoint => (checkpoint, false)
    | none => ([], true)
  | none => ([], false)

/-- Starting block of the scan, from `main`. -/
def FROM_BLOCK : ℕ := 18672539

/-- Batch size of the scan, from `main`. -/
def BATCH_SIZE : ℕ := 5000

/-- Observable state of one run of `main`. -/
structure RunState where
  /-- The in-memory checkpoint array (persisted after each push). -/
  checkpoint : List String
  /-- Content of the CSV output file (`none` = absent). -/
  csv : Option String
  /-- Pools for which `getLiquidityPoolValue` was called, in order. -/
  valuations : List String
  /-- Pools for which `getLPHolders` was called, in order. -/
  holderQueries : List String
  /-- Pools for which `checkLPHolderValue` was called, in order. -/
  qualifyCalls : List String
  /-- Record batches passed to `appendRecordsToCSV`, in order. -/
  sinkCalls : List (List QRecord)
  /-- Per-pool unhandled errors caught and logged by `main`'s loop. -/
  loggedErrors : List (String × JsError)
deriving DecidableEq, Repr

/-- Body of the per-pool loop of `main`.  An unhandled error is caught,
logged, and leaves every other component of the state unchanged; the
value gate (note: the source condition is `poolValue >= 20000` on the
SKIP branch) decides whether holder discovery runs; the sink is only
invoked for a non-empty batch of qualifying records; finally the pool
is pushed onto the checkpoint. -/
def processPool (w : World) (fromBlock toBlock batchSize : ℕ)
    (st : RunState) (lpAddress : String) : RunState :=
  match w.unhandled lpAddress with
  | some e => { st with loggedErrors := st.loggedErrors ++ [(lpAddress, e)] }
  | none =>
    let st := { st with valuations := st.valuations ++ [lpAddress] }
    let poolValue := getLiquidityPoolValue w lpAddress 18
    if 20000 ≤ poolValue then
      { st with checkpoint := st.checkpoint ++ [lpAddress] }
    else
      let holders := getLPHolders w lpAddress fromBlock toBlock batchSize
      let st := { st with holderQueries := st.holderQueries ++ [lpAddress] }
      let lpTokenUSDValue := getLPTokenUSDValue lpAddress
      let qualifyingHolders :=
        checkLPHolderValue (w.balanceOp lpAddress) lpAddress holders
          lpTokenUSDValue 18
      let st := { st with qualifyCalls := st.qualifyCalls ++ [lpAddress] }
      let st :=
        if qualifyingHolders.length > 0 then
          { st with
            csv := appendRecordsToCSV qualifyingHolders st.csv
            sinkCalls := st.sinkCalls ++ [qualifyingHolders] }
        else st
      { st with checkpoint := st.checkpoint ++ [lpAddress] }

/-- The pool addresses discovered by `main`'s step 1. -/
def discoveredPools (w : World) : List String :=
  getLPPairAddresses w FROM_BLOCK w.latestBlock BATCH_SIZE

/-- `lpPairsToProcess` in `main`: discovered pools not in the loaded
checkpoint. -/
def poolsToProcess (w : World) (checkpointFile : Option String) :
    List String :=
  (discoveredPools w).filter
    (fun addr => !(loadCheckpoint checkpointFile w.parseJson).1.contains addr)

/-- `main`: loads the checkpoint, discovers pools, filters out
already-processed ones, and folds the per-pool step over the rest. -/
def mainRun (w : World) (checkpointFile csvFile : Option String) :
    RunState :=
  (poolsToProcess w checkpointFile).foldl
    (processPool w FROM_BLOCK w.latestBlock BATCH_SIZE)
    { checkpoint := (loadCheckpoint checkpointFile w.parseJson).1
      csv := csvFile
      valuations := []
      holderQueries := []
      qualifyCalls := []
      sinkCalls := []
      loggedErrors := [] }

/-- Operation failing with timeouts on attempts 1 and 2, then
succeeding. -/
def opTimeoutsThenOk : ℕ → Except JsError ℕ := fun k =>
  if k ≤ 2 then Except.error ⟨"ETIMEDOUT"⟩ else Except.ok 7

/-- Operation failing immediately with a non-timeout error. -/
def opNonTimeout : ℕ → Except JsError ℕ := fun _ =>
  Except.error ⟨"ECONNREFUSED"⟩

/-- Operation failing with a timeout on every attempt. -/
def opAllTimeouts : ℕ → Except JsError ℕ := fun _ =>
  Except.error ⟨"TIMEOUT"⟩

/-- Operation failing with a timeout on attempt 1 and a non-timeout
error from attempt 2 on. -/
def opMixed : ℕ → Except JsError ℕ := fun k =>
  if k ≤ 1 then Except.error ⟨"ETIMEDOUT"⟩
  else Except.error ⟨"ECONNRESET"⟩

/-- Specification of first-seen-order deduplication: keep each
element's first occurrence, drop every later duplicate. -/
def firstOccurrences {α : Type} [DecidableEq α] : List α → List α
  | [] => []
  | a :: l => a :: firstOccurrences (l.filter (fun b => b ≠ a))
termination_by l => l.length
decreasing_by
  simp only [List.length_cons]
  exact Nat.lt_succ_of_le (List.length_filter_le _ _)

/-- Per-holder inclusion rule of the holder valuation gate: read the
balance through the retry wrapper (3 attempts); on success, include
the holder exactly when `balance × pricePerToken ≥ 5000`, building the
qualifying record; on failure, skip the holder. -/
def qualifyHolderSpec (balOp : String → ℕ → Except JsError ℕ)
    (lpAddress : String) (lpTokenUSDValue : ℚ) (decimals : ℕ)
    (addr : String) : Option QRecord :=
  match (fetchBalanceWithRetries (balOp addr) 3).1 with
  | FetchResult.ok balanceBN =>
    let balance : ℚ := (balanceBN : ℚ) / 10 ^ decimals
    if 5000 ≤ balance * lpTokenUSDValue then
      some ⟨lpAddress, addr, balance, balance * lpTokenUSDValue⟩
    else none
  | _ => none

/-- Balance oracle for the C5 witness: holder `h` has a holding worth
exactly 5000 USD, holder `g` one worth 4995 USD. -/
def balOpBoundary : String → ℕ → Except JsError ℕ := fun addr _ =>
  if addr = "h" then Except.ok (1000 * 10 ^ 18)
  else Except.ok (999 * 10 ^ 18)

/-- World for the C1 divergence: pool `P` has a computed value of
25000 USD (above the 20000 threshold), pool `Q` one of 10000 USD. -/
def worldGateDemo : World :=
  { latestBlock := FROM_BLOCK
    pairLogs := fun _ _ => some [⟨"t0", "t1", "P"⟩, ⟨"t0", "t1", "Q"⟩]
    transferLogs := fun _ _ _ => some [⟨"0x0", "h1", 0⟩]
    totalSupply := fun lp =>
      if lp = "P" then some (5000 * 10 ^ 18) else some (2000 * 10 ^ 18)
    balanceOp := fun _ _ _ => Except.ok (1000 * 10 ^ 18)
    parseJson := fun _ => none
    unhandled := fun _ => none }

/-- World for the C2 witness: the checkpoint file parses to `["P"]`
while pair discovery re-discovers both `P` and `Q`. -/
def worldCheckpointDemo : World :=
  { latestBlock := FROM_BLOCK
    pairLogs := fun _ _ => some [⟨"t0", "t1", "P"⟩, ⟨"t0", "t1", "Q"⟩]
    transferLogs := fun _ _ _ => some [⟨"0x0", "h1", 0⟩]
    totalSupply := fun _ => some (2000 * 10 ^ 18)
    balanceOp := fun _ _ _ => Except.ok (1000 * 10 ^ 18)
    parseJson := fun _ => some ["P"]
    unhandled := fun _ => none }

/-- World for the C7 witness: processing pool `P` raises an unhandled
`EACCES` error, pool `Q` processes normally. -/
def worldErrorDemo : World :=
  { latestBlock := FROM_BLOCK
    pairLogs := fun _ _ => some [⟨"t0", "t1", "P"⟩, ⟨"t0", "t1", "Q"⟩]
    transferLogs := fun _ _ _ => some [⟨"0x0", "h1", 0⟩]
    totalSupply := fun _ => some (2000 * 10 ^ 18)
    balanceOp := fun _ _ _ => Except.ok (1000 * 10 ^ 18)
    parseJson := fun _ => none
    unhandled := fun lp => if lp = "P" then some ⟨"EACCES"⟩ else none }

/-- World for the C8 witness: the checkpoint file's text never
parses. -/
def worldParseFailDemo : World :=
  { latestBlock := FROM_BLOCK
    pairLogs := fun _ _ => some [⟨"t0", "t1", "Q"⟩]
    transferLogs := fun _ _ _ => some [⟨"0x0", "h1", 0⟩]
    totalSupply := fun _ => some (2000 * 10 ^ 18)
    balanceOp := fun _ _ _ => Except.ok (1000 * 10 ^ 18)
    parseJson := fun _ => none
    unhandled := fun _ => none }

/-- World for the C10 witness: pool `Q` yields exactly one
qualifying holder record. -/
def worldSinkDemo : World :=
  { latestBlock := FROM_BLOCK
    pairLogs := fun _ _ => some [⟨"t0", "t1", "Q"⟩]
    transferLogs := fun _ _ _ => some [⟨"0x0", "h1", 0⟩]
    totalSupply := fun _ => some (2000 * 10 ^ 18)
    balanceOp := fun _ _ _ => Except.ok (1000 * 10 ^ 18)
    parseJson := fun _ => none
    unhandled := fun _ => none }

/-! ## Theorems -/

/-- The trace of issued queries does not depend on the query outcomes:
a failed batch never aborts the loop or changes later queries. -/
theorem qfpGo_trace_indep {E : Type} (q q' : ℕ → ℕ → Option (List E))
    (toB bs : ℕ) :
    ∀ fuel cur, (qfpGo q toB bs fuel cur).2 = (qfpGo q' toB bs fuel cur).2 := by
  intro fuel
  induction fuel with
  | zero => intro cur; rfl
  | succ n ih =>
    intro cur
    simp only [qfpGo]
    by_cases h : cur ≤ toB
    · simp [if_pos h, ih]
    · simp [if_neg h]

/-- Every issued query range lies inside the block range, starts no
earlier than the loop counter, and spans at most `bs` blocks. -/
theorem qfpGo_trace_mem {E : Type} (q : ℕ → ℕ → Option (List E)) (toB bs : ℕ)
    (hbs : 0 < bs) :
    ∀ fuel cur p, p ∈ (qfpGo q toB bs fuel cur).2 →
      cur ≤ p.1 ∧ p.1 ≤ p.2 ∧ p.2 ≤ toB ∧ p.2 + 1 - p.1 ≤ bs := by
  intro fuel
  induction fuel with
  | zero => intro cur p hp; simp [qfpGo] at hp
  | succ n ih =>
    intro cur p hp
    simp only [qfpGo] at hp
    by_cases h : cur ≤ toB
    · rw [if_pos h] at hp
      simp only [List.mem_cons] at hp
      rcases hp with rfl | hp
      · simp only []
        refine ⟨le_refl _, ?_, ?_, ?_⟩ <;> simp <;> omega
      · have := ih (cur + bs) p hp
        exact ⟨by omega, this.2.1, this.2.2.1, this.2.2.2⟩
    · rw [if_neg h] at hp; simp at hp

/-- The aggregated events are exactly the concatenation, in batch
order, of the successful batches' events. -/
theorem qfpGo_events_flatMap {E : Type} (q : ℕ → ℕ → Option (List E))
    (toB bs : ℕ) :
    ∀ fuel cur, (qfpGo q toB bs fuel cur).1 =
      ((qfpGo q toB bs fuel cur).2).flatMap (fun p => (q p.1 p.2).getD []) := by
  intro fuel
  induction fuel with
  | zero => intro cur; rfl
  | succ n ih =>
    intro cur
    simp only [qfpGo]
    by_cases h : cur ≤ toB
    · simp [if_pos h, ih]
    · simp [if_neg h]

/-- The issued query ranges, expanded block by block and concatenated
in order, give exactly the interval `[cur, toB]`. -/
theorem qfpGo_union {E : Type} (q : ℕ → ℕ → Option (List E)) (toB bs : ℕ)
    (hbs : 0 < bs) :
    ∀ fuel cur, toB + 1 - cur ≤ fuel →
      ((qfpGo q toB bs fuel cur).2).flatMap
          (fun p => List.range' p.1 (p.2 + 1 - p.1)) =
        List.range' cur (toB + 1 - cur) := by
  intro fuel
  induction fuel with
  | zero =>
    intro cur hf
    have : toB + 1 - cur = 0 := by omega
    simp [qfpGo, this]
  | succ n ih =>
    intro cur hf
    simp only [qfpGo]
    by_cases h : cur ≤ toB
    · rw [if_pos h]
      simp only [List.flatMap_cons]
      rw [ih (cur + bs) (by omega)]
      by_cases h2 : cur + bs ≤ toB
      · have e1 : (cur + bs - 1) ⊓ toB = cur + bs - 1 := by omega
        have e2 : (cur + bs - 1) + 1 - cur = bs := by omega
        have e3 : toB + 1 - (cur + bs) = (toB + 1 - cur) - bs := by omega
        simp only [e1, e2, e3]
        have hap := List.range'_append cur bs ((toB + 1 - cur) - bs) 1
        simp only [one_mul, Nat.mul_one] at hap
        rw [hap]
        congr 1
        omega
      · have e1 : (cur + bs - 1) ⊓ toB = toB := by omega
        have e2 : toB + 1 - (cur + bs) = 0 := by omega
        simp only [e1, e2]
        simp [List.range'_zero]
    · rw [if_neg h]
      have : toB + 1 - cur = 0 := by omega
      simp [this]

/-- The loop with an exhausted range issues no queries. -/
theorem qfpGo_of_gt {E : Type} (q : ℕ → ℕ → Option (List E)) (toB bs : ℕ)
    (fuel cur : ℕ) (h : toB < cur) : qfpGo q toB bs fuel cur = ([], []) := by
  cases fuel with
  | zero => rfl
  | succ n => simp [qfpGo, Nat.not_le.mpr h]

/-- Query ranges are issued with strictly increasing start blocks, so
no batch is ever queried twice. -/
theorem qfpGo_trace_pairwise {E : Type} (q : ℕ → ℕ → Option (List E))
    (toB bs : ℕ) (hbs : 0 < bs) :
    ∀ fuel cur,
      ((qfpGo q toB bs fuel cur).2).Pairwise (fun a b => a.1 < b.1) := by
  intro fuel
  induction fuel with
  | zero => intro cur; simp [qfpGo]
  | succ n ih =>
    intro cur
    simp only [qfpGo]
    by_cases h : cur ≤ toB
    · rw [if_pos h]
      simp only []
      rw [List.pairwise_cons]
      refine ⟨fun p hp => ?_, ih (cur + bs)⟩
      have := qfpGo_trace_mem q toB bs hbs n (cur + bs) p hp
      simp only []
      omega
    · rw [if_neg h]; simp

/-- The final issued query ends exactly at `toB`. -/
theorem qfpGo_trace_getLast {E : Type} (q : ℕ → ℕ → Option (List E))
    (toB bs : ℕ) (hbs : 0 < bs) :
    ∀ fuel cur, cur ≤ toB → toB + 1 - cur ≤ fuel →
      ∃ s, ((qfpGo q toB bs fuel cur).2).getLast? = some (s, toB) := by
  intro fuel
  induction fuel with
  | zero => intro cur hc hf; omega
  | succ n ih =>
    intro cur hc hf
    simp only [qfpGo, if_pos hc]
    by_cases h2 : cur + bs ≤ toB
    · obtain ⟨s, hs⟩ := ih (cur + bs) h2 (by omega)
      refine ⟨s, ?_⟩
      rw [List.getLast?_cons, hs]
      rfl
    · rw [qfpGo_of_gt q toB bs n (cur + bs) (by omega)]
      exact ⟨cur, by simp; omega⟩

/-- C4: for every block range with `to ≥ from` and every positive
`batchSize`, the paginated fetcher issues queries over batches that
exactly tile `[from, to]`: expanding the issued ranges block by block
and concatenating them in order yields precisely the interval
`[from, to]` (so the batches are consecutive, non-overlapping, and
their union is the full range), each batch spans at most `batchSize`
blocks and ends no later than `to`, and the final batch ends exactly
at `to` (clipped). -/
theorem claim_C4_pagination_exact_tiling (E : Type)
    (q : ℕ → ℕ → Option (List E)) (fromBlock toBlock batchSize : ℕ)
    (hbs : 0 < batchSize) (hft : fromBlock ≤ toBlock) :
    ((queryFilterPaginated q fromBlock toBlock batchSize).2).flatMap
        (fun p => List.range' p.1 (p.2 + 1 - p.1)) =
      List.range' fromBlock (toBlock + 1 - fromBlock) ∧
    (∀ p ∈ (queryFilterPaginated q fromBlock toBlock batchSize).2,
      p.1 ≤ p.2 ∧ p.2 + 1 - p.1 ≤ batchSize ∧ p.2 ≤ toBlock) ∧
    (∃ s, ((queryFilterPaginated q fromBlock toBlock batchSize).2).getLast? =
      some (s, toBlock)) := by
  simp only [queryFilterPaginated]
  refine ⟨qfpGo_union q toBlock batchSize hbs _ fromBlock le_rfl,
    fun p hp => ?_,
    qfpGo_trace_getLast q toBlock batchSize hbs _ fromBlock hft le_rfl⟩
  have := qfpGo_trace_mem q toBlock batchSize hbs _ fromBlock p hp
  exact ⟨this.2.1, this.2.2.2, this.2.2.1⟩

/-- Witness for C4: the range `[0, 9]` with batch size 4 is tiled by
the issued queries `(0,3), (4,7), (8,9)`. -/
theorem claim_C4_pagination_exact_tiling_witness :
    (0 : ℕ) < 4 ∧ (0 : ℕ) ≤ 9 ∧
    (((queryFilterPaginated (fun _ _ => some [0]) 0 9 4 :
        List ℕ × List (ℕ × ℕ))).2.flatMap
          (fun p => List.range' p.1 (p.2 + 1 - p.1)) =
        List.range' 0 (9 + 1 - 0) ∧
      (∀ p ∈ (queryFilterPaginated (fun _ _ => some [0]) 0 9 4 :
          List ℕ × List (ℕ × ℕ)).2,
        p.1 ≤ p.2 ∧ p.2 + 1 - p.1 ≤ 4 ∧ p.2 ≤ 9) ∧
      (∃ s, ((queryFilterPaginated (fun _ _ => some [0]) 0 9 4 :
          List ℕ × List (ℕ × ℕ)).2).getLast? = some (s, 9))) :=
  ⟨by norm_num, by norm_num,
    claim_C4_pagination_exact_tiling ℕ (fun _ _ => some [0]) 0 9 4
      (by norm_num) (by norm_num)⟩

/-- C6: a batch whose query fails contributes zero events and is not
retried, and the fetch is not aborted: the issued query trace is the
same whatever the outcomes (so every later batch is still queried,
exactly once, starts strictly increasing), and the returned sequence
is the concatenation of the successful batches' events in batch order,
a failed batch contributing the empty list. -/
theorem claim_C6_batch_failure_contained (E : Type)
    (q q' : ℕ → ℕ → Option (List E)) (fromBlock toBlock batchSize : ℕ)
    (hbs : 0 < batchSize) :
    (queryFilterPaginated q fromBlock toBlock batchSize).2 =
      (queryFilterPaginated q' fromBlock toBlock batchSize).2 ∧
    ((queryFilterPaginated q fromBlock toBlock batchSize).2).Pairwise
      (fun a b => a.1 < b.1) ∧
    (queryFilterPaginated q fromBlock toBlock batchSize).1 =
      ((queryFilterPaginated q fromBlock toBlock batchSize).2).flatMap
        (fun p => (q p.1 p.2).getD []) := by
  simp only [queryFilterPaginated]
  exact ⟨qfpGo_trace_indep q q' toBlock batchSize _ fromBlock,
    qfpGo_trace_pairwise q toBlock batchSize hbs _ fromBlock,
    qfpGo_events_flatMap q toBlock batchSize _ fromBlock⟩

/-- Witness for C6: over `[0, 9]` with batch size 4, a query source
failing on the middle batch issues the same queries as an all-success
source, and the events are the successful batches' events in order. -/
theorem claim_C6_batch_failure_contained_witness :
    (0 : ℕ) < 4 ∧
    ((queryFilterPaginated
          (fun s e => if s = 4 then none else some [s, e]) 0 9 4).2 =
        (queryFilterPaginated (fun s e => some [s, e]) 0 9 4).2 ∧
      ((queryFilterPaginated
          (fun s e => if s = 4 then none else some [s, e]) 0 9 4).2).Pairwise
        (fun a b => a.1 < b.1) ∧
      (queryFilterPaginated
          (fun s e => if s = 4 then none else some [s, e]) 0 9 4).1 =
        ((queryFilterPaginated
            (fun s e => if s = 4 then none else some [s, e]) 0 9 4).2).flatMap
          (fun p =>
            ((fun s e => if s = 4 then (none : Option (List ℕ))
                else some [s, e]) p.1 p.2).getD [])) :=
  ⟨by norm_num,
    claim_C6_batch_failure_contained ℕ
      (fun s e => if s = 4 then none else some [s, e])
      (fun s e => some [s, e]) 0 9 4 (by norm_num)⟩

/-- If attempts `a .. a+n-1` fail with timeout-class errors and attempt
`a + n` succeeds within the allowed attempts, the retry loop returns
the success value having slept `n` times. -/
theorem fbwrGo_timeouts_then_ok (op : ℕ → Except JsError ℕ) (retries : ℕ)
    (v : ℕ) :
    ∀ n a, 1 ≤ a → a + n ≤ retries →
      (∀ k, a ≤ k → k < a + n →
        ∃ te, op k = Except.error te ∧ isTimeoutError te = true) →
      op (a + n) = Except.ok v →
      fbwrGo op retries (retries + 1 - a) a = (FetchResult.ok v, n) := by
  intro n
  induction n with
  | zero =>
    intro a ha har _hfail hok
    have hf : retries + 1 - a = (retries - a) + 1 := by omega
    rw [hf]
    simp only [fbwrGo]
    rw [show a + 0 = a from rfl] at hok
    rw [hok]
  | succ m ih =>
    intro a ha har hfail hok
    obtain ⟨te, hte, htimeout⟩ := hfail a le_rfl (by omega)
    have hf : retries + 1 - a = (retries - a) + 1 := by omega
    rw [hf]
    simp only [fbwrGo]
    rw [hte]
    simp only [htimeout, if_true]
    rw [if_pos (by omega : a < retries)]
    have hrec : retries - a = retries + 1 - (a + 1) := by omega
    rw [hrec, ih (a + 1) (by omega) (by omega)
      (fun k hk1 hk2 => hfail k (by omega) (by omega))
      (by rw [show a + 1 + m = a + (m + 1) by omega]; exact hok)]

/-- If every attempt from `a` through `retries` fails with a
timeout-class error, the retry loop re-raises the error of the last
attempt, having slept once per non-final failing attempt. -/
theorem fbwrGo_all_timeouts (op : ℕ → Except JsError ℕ) (retries : ℕ)
    (errs : ℕ → JsError) :
    ∀ n a, 1 ≤ a → a + n = retries →
      (∀ k, a ≤ k → k ≤ retries →
        op k = Except.error (errs k) ∧ isTimeoutError (errs k) = true) →
      fbwrGo op retries (retries + 1 - a) a =
        (FetchResult.err (errs retries), n) := by
  intro n
  induction n with
  | zero =>
    intro a ha har hfail
    obtain ⟨he, ht⟩ := hfail a le_rfl (by omega)
    have hf : retries + 1 - a = (retries - a) + 1 := by omega
    rw [hf]
    simp only [fbwrGo]
    rw [he]
    simp only [ht, if_true]
    rw [if_neg (by omega : ¬ a < retries)]
    rw [show a = retries by omega]
  | succ m ih =>
    intro a ha har hfail
    obtain ⟨he, ht⟩ := hfail a le_rfl (by omega)
    have hf : retries + 1 - a = (retries - a) + 1 := by omega
    rw [hf]
    simp only [fbwrGo]
    rw [he]
    simp only [ht, if_true]
    rw [if_pos (by omega : a < retries)]
    have hrec : retries - a = retries + 1 - (a + 1) := by omega
    rw [hrec, ih (a + 1) (by omega) (by omega)
      (fun k hk1 hk2 => hfail k (by omega) hk2)]

/-- If attempts `a .. a+n-1` fail with timeout-class errors and
attempt `a + n` fails with a non-timeout error, the retry loop aborts
at attempt `a + n` with that error, no pause following it. -/
theorem fbwrGo_timeouts_then_other (op : ℕ → Except JsError ℕ)
    (retries : ℕ) (e : JsError) (hnt : isTimeoutError e = false) :
    ∀ n a, 1 ≤ a → a + n ≤ retries →
      (∀ k, a ≤ k → k < a + n →
        ∃ te, op k = Except.error te ∧ isTimeoutError te = true) →
      op (a + n) = Except.error e →
      fbwrGo op retries (retries + 1 - a) a = (FetchResult.err e, n) := by
  intro n
  induction n with
  | zero =>
    intro a ha har _hfail herr
    have hf : retries + 1 - a = (retries - a) + 1 := by omega
    rw [hf]
    simp only [fbwrGo]
    rw [show a + 0 = a from rfl] at herr
    rw [herr]
    simp [hnt]
  | succ m ih =>
    intro a ha har hfail herr
    obtain ⟨te, hte, htimeout⟩ := hfail a le_rfl (by omega)
    have hf : retries + 1 - a = (retries - a) + 1 := by omega
    rw [hf]
    simp only [fbwrGo]
    rw [hte]
    simp only [htimeout, if_true]
    rw [if_pos (by omega : a < retries)]
    have hrec : retries - a = retries + 1 - (a + 1) := by omega
    rw [hrec, ih (a + 1) (by omega) (by omega)
      (fun k hk1 hk2 => hfail k (by omega) (by omega))
      (by rw [show a + 1 + m = a + (m + 1) by omega]; exact herr)]

/-- C3: the retry wrapper, for any operation and any `N` with
`N + 1 ≤ maxAttempts`: an operation that fails with timeout-class
errors exactly `N` times and then succeeds yields the success value
after exactly `N` pauses; an operation that fails with a non-timeout
error fails immediately with that error — on the first attempt with
zero pauses, and after `M` timeout failures with only the `M` pauses
those timeouts caused, none following the non-timeout error; an
operation failing with timeout-class errors on all `maxAttempts`
attempts makes the wrapper re-raise the last attempt's error. -/
theorem claim_C3_retry_wrapper (op1 op2 op3 op4 : ℕ → Except JsError ℕ)
    (retries N M v : ℕ) (e e4 : JsError) (errs : ℕ → JsError) :
    ((∀ k, 1 ≤ k → k ≤ N →
        ∃ te, op1 k = Except.error te ∧ isTimeoutError te = true) →
      op1 (N + 1) = Except.ok v → N + 1 ≤ retries →
      fetchBalanceWithRetries op1 retries = (FetchResult.ok v, N)) ∧
    (op2 1 = Except.error e → isTimeoutError e = false → 1 ≤ retries →
      fetchBalanceWithRetries op2 retries = (FetchResult.err e, 0)) ∧
    ((∀ k, 1 ≤ k → k ≤ retries →
        op3 k = Except.error (errs k) ∧ isTimeoutError (errs k) = true) →
      1 ≤ retries →
      fetchBalanceWithRetries op3 retries =
        (FetchResult.err (errs retries), retries - 1)) ∧
    ((∀ k, 1 ≤ k → k ≤ M →
        ∃ te, op4 k = Except.error te ∧ isTimeoutError te = true) →
      op4 (M + 1) = Except.error e4 → isTimeoutError e4 = false →
      M + 1 ≤ retries →
      fetchBalanceWithRetries op4 retries = (FetchResult.err e4, M)) := by
  refine ⟨fun hfail hok hle => ?_, fun he hnt hr => ?_, fun hfail hr => ?_,
    fun hfail herr hnt hle => ?_⟩
  · have := fbwrGo_timeouts_then_ok op1 retries v N 1 le_rfl (by omega)
      (fun k hk1 hk2 => hfail k hk1 (by omega))
      (by rw [show 1 + N = N + 1 by omega]; exact hok)
    simpa [fetchBalanceWithRetries, show retries + 1 - 1 = retries by omega]
      using this
  · have hf : retries = (retries - 1) + 1 := by omega
    rw [fetchBalanceWithRetries, hf]
    simp only [fbwrGo]
    rw [he]
    simp [hnt]
  · have := fbwrGo_all_timeouts op3 retries errs (retries - 1) 1 le_rfl
      (by omega) (fun k hk1 hk2 => hfail k hk1 hk2)
    simpa [fetchBalanceWithRetries, show retries + 1 - 1 = retries by omega]
      using this
  · have := fbwrGo_timeouts_then_other op4 retries e4 hnt M 1 le_rfl
      (by omega) (fun k hk1 hk2 => hfail k hk1 (by omega))
      (by rw [show 1 + M = M + 1 by omega]; exact herr)
    simpa [fetchBalanceWithRetries, show retries + 1 - 1 = retries by omega]
      using this

/-- Witness for C3 with `maxAttempts = 4`: two timeouts then success
gives the value with two pauses; a non-timeout error on attempt 1
aborts with zero pauses; four timeouts re-raise the last error after
three pauses; a timeout then a non-timeout error aborts at attempt 2
with one pause (the timeout's), none after the non-timeout error. -/
theorem claim_C3_retry_wrapper_witness :
    fetchBalanceWithRetries opTimeoutsThenOk 4 = (FetchResult.ok 7, 2) ∧
    fetchBalanceWithRetries opNonTimeout 4 =
      (FetchResult.err ⟨"ECONNREFUSED"⟩, 0) ∧
    fetchBalanceWithRetries opAllTimeouts 4 =
      (FetchResult.err ⟨"TIMEOUT"⟩, 3) ∧
    fetchBalanceWithRetries opMixed 4 =
      (FetchResult.err ⟨"ECONNRESET"⟩, 1) := by
  have h := claim_C3_retry_wrapper opTimeoutsThenOk opNonTimeout opAllTimeouts
    opMixed 4 2 1 7 ⟨"ECONNREFUSED"⟩ ⟨"ECONNRESET"⟩ (fun _ => ⟨"TIMEOUT"⟩)
  refine ⟨h.1 (fun k h1 h2 => ⟨⟨"ETIMEDOUT"⟩, by
      simp [opTimeoutsThenOk, if_pos h2], rfl⟩)
      (by simp [opTimeoutsThenOk]) (by norm_num),
    h.2.1 rfl rfl (by norm_num),
    h.2.2.1 (fun k _ _ => ⟨rfl, rfl⟩) (by norm_num),
    h.2.2.2 (fun k h1 h2 => ⟨⟨"ETIMEDOUT"⟩, by
      simp [opMixed, if_pos h2], rfl⟩)
      (by simp [opMixed]) rfl (by norm_num)⟩

/-- `firstOccurrences` preserves membership. -/
theorem mem_firstOccurrences {α : Type} [DecidableEq α] :
    ∀ (l : List α) (x : α), x ∈ firstOccurrences l ↔ x ∈ l := by
  intro l
  induction l using firstOccurrences.induct with
  | case1 => intro x; simp [firstOccurrences]
  | case2 a l ih =>
    intro x
    rw [firstOccurrences]
    simp only [List.mem_cons, ih]
    by_cases hx : x = a
    · simp [hx]
    · simp [hx, List.mem_filter, hx]

/-- `firstOccurrences` contains no duplicates. -/
theorem firstOccurrences_nodup {α : Type} [DecidableEq α] :
    ∀ l : List α, (firstOccurrences l).Nodup := by
  intro l
  induction l using firstOccurrences.induct with
  | case1 => simp [firstOccurrences]
  | case2 a l ih =>
    rw [firstOccurrences]
    rw [List.nodup_cons]
    refine ⟨fun hmem => ?_, ih⟩
    rw [mem_firstOccurrences] at hmem
    simp [List.mem_filter] at hmem

/-- The uniqueness-set fold underlying `jsSetDedup`, characterized
against `firstOccurrences` for an arbitrary accumulator. -/
theorem foldl_dedup_eq (α : Type) [DecidableEq α] :
    ∀ (l acc : List α),
      l.foldl (fun acc a => if a ∈ acc then acc else acc ++ [a]) acc =
        acc ++ firstOccurrences (l.filter (fun b => decide (b ∉ acc))) := by
  intro l
  induction l with
  | nil => intro acc; simp [firstOccurrences]
  | cons a rest ih =>
    intro acc
    simp only [List.foldl_cons]
    by_cases h : a ∈ acc
    · rw [if_pos h, ih]
      congr 2
      simp [List.filter_cons, h]
    · rw [if_neg h, ih]
      rw [List.filter_cons]
      simp only [h, not_false_iff, decide_True, if_true]
      rw [show (firstOccurrences
          (a :: List.filter (fun b => decide (b ∉ acc)) rest)) =
        a :: firstOccurrences
          ((List.filter (fun b => decide (b ∉ acc)) rest).filter
            (fun b => b ≠ a)) from by rw [firstOccurrences.eq_def]]
      rw [List.append_assoc]
      congr 1
      rw [List.singleton_append]
      congr 1
      rw [List.filter_filter]
      congr 1
      apply List.filter_congr
      intro b _
      simp [List.mem_append, not_or, and_comm]

/-- The JavaScript `[...new Set(l)]` dedup keeps exactly the first
occurrence of each element, in first-seen order. -/
theorem jsSetDedup_eq_firstOccurrences {α : Type} [DecidableEq α]
    (l : List α) : jsSetDedup l = firstOccurrences l := by
  rw [jsSetDedup, foldl_dedup_eq]
  simp

/-- C9: pair discovery and holder discovery each return a
duplicate-free list in first-seen order — the result equals
`firstOccurrences` of the extracted address sequence, so each address
appears exactly once, at the position of its first occurrence in the
underlying event sequence, whatever duplicates the events contain. -/
theorem claim_C9_discovery_first_seen_dedup (w : World)
    (fromBlock toBlock batchSize : ℕ) (lpAddress : String) :
    (getLPPairAddresses w fromBlock toBlock batchSize).Nodup ∧
    getLPPairAddresses w fromBlock toBlock batchSize =
      firstOccurrences
        (((queryFilterPaginated w.pairLogs fromBlock toBlock
            batchSize).1).map (fun log => log.pair)) ∧
    (getLPHolders w lpAddress fromBlock toBlock batchSize).Nodup ∧
    getLPHolders w lpAddress fromBlock toBlock batchSize =
      firstOccurrences
        (((queryFilterPaginated (w.transferLogs lpAddress) fromBlock
            toBlock batchSize).1).map (fun log => log.toAddr)) := by
  refine ⟨?_, ?_, ?_, ?_⟩ <;>
    simp only [getLPPairAddresses, getLPHolders,
      jsSetDedup_eq_firstOccurrences] <;>
    exact firstOccurrences_nodup _

/-- The push-accumulator loop of `checkLPHolderValue` applies the
per-holder rule to each input holder in order. -/
theorem chvGo_eq_filterMap (balOp : String → ℕ → Except JsError ℕ)
    (lp : String) (price : ℚ) (d : ℕ) :
    ∀ (hs : List String) (acc : List QRecord),
      chvGo balOp lp price d acc hs =
        acc ++ hs.filterMap (qualifyHolderSpec balOp lp price d) := by
  intro hs
  induction hs with
  | nil => intro acc; simp [chvGo]
  | cons addr rest ih =>
    intro acc
    rw [chvGo, List.filterMap_cons]
    cases hres : (fetchBalanceWithRetries (balOp addr) 3).1 with
    | ok bn =>
      simp only [hres, qualifyHolderSpec]
      by_cases hv : (5000 : ℚ) ≤ (bn : ℚ) / 10 ^ d * price
      · simp only [hv, if_pos hv, ih]
        simp
      · simp only [hv, if_false, ih]
    | err e => simp only [hres, qualifyHolderSpec]; exact ih acc
    | undef => simp only [hres, qualifyHolderSpec]; exact ih acc

/-- C5: the holder qualification step includes a holder whose balance
read succeeds if and only if `balance × pricePerToken ≥ 5000` (the
boundary value 5000 is included, anything below is excluded), and the
output records appear in the same order as the input holder list: the
output is exactly the per-holder rule filter-mapped over the input. -/
theorem claim_C5_holder_threshold (balOp : String → ℕ → Except JsError ℕ)
    (lpAddress : String) (holderAddresses : List String)
    (lpTokenUSDValue : ℚ) (decimals : ℕ) :
    checkLPHolderValue balOp lpAddress holderAddresses lpTokenUSDValue
        decimals =
      holderAddresses.filterMap
        (qualifyHolderSpec balOp lpAddress lpTokenUSDValue decimals) ∧
    (∀ addr bn,
      (fetchBalanceWithRetries (balOp addr) 3).1 = FetchResult.ok bn →
      ((qualifyHolderSpec balOp lpAddress lpTokenUSDValue decimals
          addr).isSome ↔
        5000 ≤ (bn : ℚ) / 10 ^ decimals * lpTokenUSDValue)) := by
  refine ⟨by rw [checkLPHolderValue, chvGo_eq_filterMap]; simp,
    fun addr bn hres => ?_⟩
  rw [qualifyHolderSpec, hres]
  by_cases hv : (5000 : ℚ) ≤ (bn : ℚ) / 10 ^ decimals * lpTokenUSDValue
  · simp [hv]
  · simp [hv]

/-- Witness for C5: the holder at exactly the 5000 USD boundary is
included, the holder just below it is excluded, and the output keeps
the input order. -/
theorem claim_C5_holder_threshold_witness :
    (fetchBalanceWithRetries (balOpBoundary "h") 3).1 =
      FetchResult.ok (1000 * 10 ^ 18) ∧
    ((qualifyHolderSpec balOpBoundary "lp" 5 18 "h").isSome ↔
      (5000 : ℚ) ≤ ((1000 * 10 ^ 18 : ℕ) : ℚ) / 10 ^ 18 * 5) ∧
    checkLPHolderValue balOpBoundary "lp" ["h", "g"] 5 18 =
      [⟨"lp", "h", 1000, 5000⟩] := by
  refine ⟨rfl,
    (claim_C5_holder_threshold balOpBoundary "lp" ["h", "g"] 5 18).2 "h"
      (1000 * 10 ^ 18) rfl, ?_⟩
  norm_num +decide [checkLPHolderValue, chvGo, fetchBalanceWithRetries,
    fbwrGo, balOpBoundary]

/-- Every record produced by the holder gate carries the pool address
it was called with. -/
theorem checkLPHolderValue_lpAddress (balOp : String → ℕ → Except JsError ℕ)
    (lp : String) (hs : List String) (price : ℚ) (d : ℕ) :
    ∀ r ∈ checkLPHolderValue balOp lp hs price d, r.lpAddress = lp := by
  intro r hr
  rw [checkLPHolderValue, chvGo_eq_filterMap] at hr
  simp only [List.nil_append, List.mem_filterMap] at hr
  obtain ⟨addr, _, hq⟩ := hr
  rw [qualifyHolderSpec] at hq
  split at hq
  · dsimp only at hq
    split at hq
    · cases hq
      rfl
    · cases hq
  · cases hq

/-- One pool step extends the valuation trace with at most its own
pool, and only when no unhandled error occurred. -/
theorem processPool_valuations (w : World) (f t bs : ℕ) (st : RunState)
    (lp : String) :
    (processPool w f t bs st lp).valuations = st.valuations ∨
      ((processPool w f t bs st lp).valuations = st.valuations ++ [lp] ∧
        w.unhandled lp = none) := by
  cases hu : w.unhandled lp with
  | some e => left; simp [processPool, hu]
  | none =>
    right
    refine ⟨?_, rfl⟩
    simp only [processPool, hu]
    split_ifs <;> rfl

/-- One pool step extends the holder-query trace with at most its own
pool, and only when no unhandled error occurred. -/
theorem processPool_holderQueries (w : World) (f t bs : ℕ) (st : RunState)
    (lp : String) :
    (processPool w f t bs st lp).holderQueries = st.holderQueries ∨
      ((processPool w f t bs st lp).holderQueries = st.holderQueries ++ [lp] ∧
        w.unhandled lp = none) := by
  cases hu : w.unhandled lp with
  | some e => left; simp [processPool, hu]
  | none =>
    simp only [processPool, hu]
    split_ifs with h1 h2
    · left; rfl
    · right; exact ⟨rfl, trivial⟩
    · right; exact ⟨rfl, trivial⟩

/-- One pool step extends the qualification trace with at most its
own pool, and only when no unhandled error occurred. -/
theorem processPool_qualifyCalls (w : World) (f t bs : ℕ) (st : RunState)
    (lp : String) :
    (processPool w f t bs st lp).qualifyCalls = st.qualifyCalls ∨
      ((processPool w f t bs st lp).qualifyCalls = st.qualifyCalls ++ [lp] ∧
        w.unhandled lp = none) := by
  cases hu : w.unhandled lp with
  | some e => left; simp [processPool, hu]
  | none =>
    simp only [processPool, hu]
    split_ifs with h1 h2
    · left; rfl
    · right; exact ⟨rfl, trivial⟩
    · right; exact ⟨rfl, trivial⟩

/-- One pool step appends at most its own pool to the checkpoint, and
only when no unhandled error occurred. -/
theorem processPool_checkpoint (w : World) (f t bs : ℕ) (st : RunState)
    (lp : String) :
    (processPool w f t bs st lp).checkpoint = st.checkpoint ∨
      ((processPool w f t bs st lp).checkpoint = st.checkpoint ++ [lp] ∧
        w.unhandled lp = none) := by
  cases hu : w.unhandled lp with
  | some e => left; simp [processPool, hu]
  | none =>
    right
    refine ⟨?_, rfl⟩
    simp only [processPool, hu]
    split_ifs <;> rfl

/-- One pool step passes at most one batch to the record sink: a
non-empty batch of records for its own pool, and only when no
unhandled error occurred. -/
theorem processPool_sinkCalls (w : World) (f t bs : ℕ) (st : RunState)
    (lp : String) :
    (processPool w f t bs st lp).sinkCalls = st.sinkCalls ∨
      ∃ recs, (processPool w f t bs st lp).sinkCalls = st.sinkCalls ++ [recs] ∧
        recs ≠ [] ∧ (∀ r ∈ recs, r.lpAddress = lp) ∧
        w.unhandled lp = none := by
  cases hu : w.unhandled lp with
  | some e => left; simp [processPool, hu]
  | none =>
    simp only [processPool, hu]
    split_ifs with h1 h2
    · left; rfl
    · right
      refine ⟨_, rfl, ?_, ?_, trivial⟩
      · intro hnil
        rw [hnil] at h2
        simp at h2
      · exact checkLPHolderValue_lpAddress _ _ _ _ _
    · left; rfl

/-- One pool step logs exactly its own unhandled error, if any. -/
theorem processPool_loggedErrors (w : World) (f t bs : ℕ) (st : RunState)
    (lp : String) :
    (processPool w f t bs st lp).loggedErrors = st.loggedErrors ∨
      ∃ e, w.unhandled lp = some e ∧
        (processPool w f t bs st lp).loggedErrors =
          st.loggedErrors ++ [(lp, e)] := by
  cases hu : w.unhandled lp with
  | some e => right; exact ⟨e, rfl, by simp [processPool, hu]⟩
  | none =>
    left
    simp only [processPool, hu]
    split_ifs <;> rfl

/-- One pool step either leaves the CSV file alone or appends rows
after the existing content (creating the header if absent). -/
theorem processPool_csv (w : World) (f t bs : ℕ) (st : RunState)
    (lp : String) :
    (processPool w f t bs st lp).csv = st.csv ∨
      ∃ rows, (processPool w f t bs st lp).csv =
        some (st.csv.getD CSV_HEADER ++ rows) := by
  cases hu : w.unhandled lp with
  | some e => left; simp [processPool, hu]
  | none =>
    simp only [processPool, hu]
    split_ifs with h1 h2
    · left; rfl
    · right
      refine ⟨String.intercalate "\n"
        ((checkLPHolderValue (w.balanceOp lp) lp (getLPHolders w lp f t bs)
          (getLPTokenUSDValue lp) 18).map csvRow) ++ "\n", ?_⟩
      show appendRecordsToCSV _ st.csv = _
      cases st.csv <;> simp [appendRecordsToCSV]
    · left; rfl

/-- A pool without an unhandled error is valuated and checkpointed by
its own step. -/
theorem processPool_self_none (w : World) (f t bs : ℕ) (st : RunState)
    (lp : String) (hu : w.unhandled lp = none) :
    lp ∈ (processPool w f t bs st lp).valuations ∧
      lp ∈ (processPool w f t bs st lp).checkpoint := by
  simp only [processPool, hu]
  split_ifs <;> simp

/-- A pool with an unhandled error has that error logged by its own
step. -/
theorem processPool_self_some (w : World) (f t bs : ℕ) (st : RunState)
    (lp : String) (e : JsError) (hu : w.unhandled lp = some e) :
    (lp, e) ∈ (processPool w f t bs st lp).loggedErrors := by
  simp [processPool, hu]

/-- One pool step never removes entries from the valuation trace, the
checkpoint, or the error log. -/
theorem processPool_mono (w : World) (f t bs : ℕ) (st : RunState)
    (lp : String) :
    (∀ x ∈ st.valuations, x ∈ (processPool w f t bs st lp).valuations) ∧
    (∀ x ∈ st.checkpoint, x ∈ (processPool w f t bs st lp).checkpoint) ∧
    (∀ p ∈ st.loggedErrors, p ∈ (processPool w f t bs st lp).loggedErrors) := by
  refine ⟨fun x hx => ?_, fun x hx => ?_, fun p hp => ?_⟩
  · rcases processPool_valuations w f t bs st lp with he | ⟨he, _⟩ <;>
      rw [he] <;> simp [hx]
  · rcases processPool_checkpoint w f t bs st lp with he | ⟨he, _⟩ <;>
      rw [he] <;> simp [hx]
  · rcases processPool_loggedErrors w f t bs st lp with he | ⟨e, _, he⟩ <;>
      rw [he] <;> simp [hp]

/-- The pool loop never removes entries from the valuation trace, the
checkpoint, or the error log. -/
theorem foldl_processPool_mono (w : World) (f t bs : ℕ) :
    ∀ (L : List String) (st : RunState),
      (∀ x ∈ st.valuations,
        x ∈ (L.foldl (processPool w f t bs) st).valuations) ∧
      (∀ x ∈ st.checkpoint,
        x ∈ (L.foldl (processPool w f t bs) st).checkpoint) ∧
      (∀ p ∈ st.loggedErrors,
        p ∈ (L.foldl (processPool w f t bs) st).loggedErrors) := by
  intro L
  induction L with
  | nil => intro st; exact ⟨fun x hx => hx, fun x hx => hx, fun p hp => hp⟩
  | cons a rest ih =>
    intro st
    simp only [List.foldl_cons]
    obtain ⟨iv, ic, il⟩ := ih (processPool w f t bs st a)
    obtain ⟨pv, pc, pl⟩ := processPool_mono w f t bs st a
    exact ⟨fun x hx => iv x (pv x hx), fun x hx => ic x (pc x hx),
      fun p hp => il p (pl p hp)⟩

/-- Everything the pool loop adds to its traces comes from a pool of
the processed list whose step ran without an unhandled error; sink
batches are non-empty and uniform in their pool address. -/
theorem foldl_processPool_mem (w : World) (f t bs : ℕ) :
    ∀ (L : List String) (st : RunState),
      (∀ x ∈ (L.foldl (processPool w f t bs) st).valuations,
        x ∈ st.valuations ∨ (x ∈ L ∧ w.unhandled x = none)) ∧
      (∀ x ∈ (L.foldl (processPool w f t bs) st).holderQueries,
        x ∈ st.holderQueries ∨ (x ∈ L ∧ w.unhandled x = none)) ∧
      (∀ x ∈ (L.foldl (processPool w f t bs) st).qualifyCalls,
        x ∈ st.qualifyCalls ∨ (x ∈ L ∧ w.unhandled x = none)) ∧
      (∀ x ∈ (L.foldl (processPool w f t bs) st).checkpoint,
        x ∈ st.checkpoint ∨ (x ∈ L ∧ w.unhandled x = none)) ∧
      (∀ c ∈ (L.foldl (processPool w f t bs) st).sinkCalls,
        c ∈ st.sinkCalls ∨
          (c ≠ [] ∧ ∃ lp, lp ∈ L ∧ w.unhandled lp = none ∧
            ∀ r ∈ c, r.lpAddress = lp)) := by
  intro L
  induction L with
  | nil =>
    intro st
    exact ⟨fun x hx => Or.inl hx, fun x hx => Or.inl hx,
      fun x hx => Or.inl hx, fun x hx => Or.inl hx, fun c hc => Or.inl hc⟩
  | cons a rest ih =>
    intro st
    simp only [List.foldl_cons]
    obtain ⟨iv, ihq, iq, ic, is⟩ := ih (processPool w f t bs st a)
    refine ⟨fun x hx => ?_, fun x hx => ?_, fun x hx => ?_, fun x hx => ?_,
      fun c hc => ?_⟩
    · rcases iv x hx with hx' | ⟨hxL, hxu⟩
      · rcases processPool_valuations w f t bs st a with he | ⟨he, hu⟩
        · rw [he] at hx'; exact Or.inl hx'
        · rw [he] at hx'
          rcases List.mem_append.mp hx' with h | h
          · exact Or.inl h
          · simp only [List.mem_singleton] at h
            subst h
            exact Or.inr ⟨List.mem_cons_self _ _, hu⟩
      · exact Or.inr ⟨List.mem_cons_of_mem _ hxL, hxu⟩
    · rcases ihq x hx with hx' | ⟨hxL, hxu⟩
      · rcases processPool_holderQueries w f t bs st a with he | ⟨he, hu⟩
        · rw [he] at hx'; exact Or.inl hx'
        · rw [he] at hx'
          rcases List.mem_append.mp hx' with h | h
          · exact Or.inl h
          · simp only [List.mem_singleton] at h
            subst h
            exact Or.inr ⟨List.mem_cons_self _ _, hu⟩
      · exact Or.inr ⟨List.mem_cons_of_mem _ hxL, hxu⟩
    · rcases iq x hx with hx' | ⟨hxL, hxu⟩
      · rcases processPool_qualifyCalls w f t bs st a with he | ⟨he, hu⟩
        · rw [he] at hx'; exact Or.inl hx'
        · rw [he] at hx'
          rcases List.mem_append.mp hx' with h | h
          · exact Or.inl h
          · simp only [List.mem_singleton] at h
            subst h
            exact Or.inr ⟨List.mem_cons_self _ _, hu⟩
      · exact Or.inr ⟨List.mem_cons_of_mem _ hxL, hxu⟩
    · rcases ic x hx with hx' | ⟨hxL, hxu⟩
      · rcases processPool_checkpoint w f t bs st a with he | ⟨he, hu⟩
        · rw [he] at hx'; exact Or.inl hx'
        · rw [he] at hx'
          rcases List.mem_append.mp hx' with h | h
          · exact Or.inl h
          · simp only [List.mem_singleton] at h
            subst h
            exact Or.inr ⟨List.mem_cons_self _ _, hu⟩
      · exact Or.inr ⟨List.mem_cons_of_mem _ hxL, hxu⟩
    · rcases is c hc with hc' | ⟨hne, lp, hlpL, hlpu, hall⟩
      · rcases processPool_sinkCalls w f t bs st a with he | ⟨recs, he, hrne, hrall, hu⟩
        · rw [he] at hc'; exact Or.inl hc'
        · rw [he] at hc'
          rcases List.mem_append.mp hc' with h | h
          · exact Or.inl h
          · simp only [List.mem_singleton] at h
            subst h
            exact Or.inr ⟨hrne, a, List.mem_cons_self _ _, hu, hrall⟩
      · exact Or.inr ⟨hne, lp, List.mem_cons_of_mem _ hlpL, hlpu, hall⟩

/-- Every pool of the processed list is handled by the loop: valuated
and checkpointed when its step runs cleanly, logged when its step
raises an unhandled error. -/
theorem foldl_processPool_processes (w : World) (f t bs : ℕ) :
    ∀ (L : List String) (st : RunState) (lp : String), lp ∈ L →
      (w.unhandled lp = none →
        lp ∈ (L.foldl (processPool w f t bs) st).valuations ∧
        lp ∈ (L.foldl (processPool w f t bs) st).checkpoint) ∧
      (∀ e, w.unhandled lp = some e →
        (lp, e) ∈ (L.foldl (processPool w f t bs) st).loggedErrors) := by
  intro L
  induction L with
  | nil => intro st lp hlp; simp at hlp
  | cons a rest ih =>
    intro st lp hlp
    simp only [List.foldl_cons]
    rcases List.mem_cons.mp hlp with rfl | hlp'
    · obtain ⟨mv, mc, ml⟩ := foldl_processPool_mono w f t bs rest
        (processPool w f t bs st lp)
      refine ⟨fun hu => ?_, fun e hu => ?_⟩
      · obtain ⟨h1, h2⟩ := processPool_self_none w f t bs st lp hu
        exact ⟨mv lp h1, mc lp h2⟩
      · exact ml (lp, e) (processPool_self_some w f t bs st lp e hu)
    · exact ih (processPool w f t bs st a) lp hlp'

/-- The pool loop only ever appends to the CSV file content. -/
theorem foldl_processPool_csv (w : World) (f t bs : ℕ) :
    ∀ (L : List String) (st : RunState) (c : String), st.csv = some c →
      ∃ tail, (L.foldl (processPool w f t bs) st).csv = some (c ++ tail) := by
  intro L
  induction L with
  | nil =>
    intro st c hc
    exact ⟨"", by simp [hc]⟩
  | cons a rest ih =>
    intro st c hc
    simp only [List.foldl_cons]
    rcases processPool_csv w f t bs st a with he | ⟨rows, he⟩
    · exact ih (processPool w f t bs st a) c (he.trans hc)
    · rw [hc] at he
      simp only [Option.getD_some] at he
      obtain ⟨tail, htail⟩ := ih (processPool w f t bs st a) (c ++ rows) he
      exact ⟨rows ++ tail, by rw [htail, String.append_assoc]⟩

/-- C2: for every pool address `P` in the loaded checkpoint set, a
run performs no valuation, holder-discovery, or holder-qualification
work for `P` and appends no output rows for `P` — prior CSV content is
preserved as a prefix of the final content — whether or not `P` is
re-discovered by pair discovery. -/
theorem claim_C2_checkpointed_pool_skipped (w : World)
    (cpFile csvFile : Option String) (P : String)
    (hP : P ∈ (loadCheckpoint cpFile w.parseJson).1) :
    P ∉ (mainRun w cpFile csvFile).valuations ∧
    P ∉ (mainRun w cpFile csvFile).holderQueries ∧
    P ∉ (mainRun w cpFile csvFile).qualifyCalls ∧
    (∀ call ∈ (mainRun w cpFile csvFile).sinkCalls, ∀ r ∈ call,
      r.lpAddress ≠ P) ∧
    (∀ content, csvFile = some content →
      ∃ tail, (mainRun w cpFile csvFile).csv = some (content ++ tail)) := by
  have hPnot : P ∉ poolsToProcess w cpFile := by
    simp only [poolsToProcess, List.mem_filter]
    rintro ⟨-, hcon⟩
    simp only [Bool.not_eq_true'] at hcon
    simp at hcon
    exact hcon hP
  simp only [mainRun]
  obtain ⟨iv, ihq, iq, ic, is⟩ := foldl_processPool_mem w FROM_BLOCK
    w.latestBlock BATCH_SIZE (poolsToProcess w cpFile)
    { checkpoint := (loadCheckpoint cpFile w.parseJson).1
      csv := csvFile
      valuations := []
      holderQueries := []
      qualifyCalls := []
      sinkCalls := []
      loggedErrors := [] }
  refine ⟨fun h => ?_, fun h => ?_, fun h => ?_, fun call hcall r hr => ?_, 
    fun content hcsv => ?_⟩
  · rcases iv P h with h' | ⟨hL, _⟩
    · simp at h'
    · exact hPnot hL
  · rcases ihq P h with h' | ⟨hL, _⟩
    · simp at h'
    · exact hPnot hL
  · rcases iq P h with h' | ⟨hL, _⟩
    · simp at h'
    · exact hPnot hL
  · rcases is call hcall with h' | ⟨_, lp, hlpL, _, hall⟩
    · simp at h'
    · rw [hall r hr]
      rintro rfl
      exact hPnot hlpL
  · exact foldl_processPool_csv w FROM_BLOCK w.latestBlock BATCH_SIZE
      (poolsToProcess w cpFile) _ content hcsv

/-- C7: a pool whose processing raises an unhandled error has the
error caught and logged, is not added to the checkpoint (leaving it
eligible for reprocessing), and every other pool of the processed list
whose step runs cleanly is still valuated and checkpointed. -/
theorem claim_C7_unhandled_pool_error_contained (w : World)
    (cpFile csvFile : Option String) (P : String) (e : JsError)
    (hP : P ∈ poolsToProcess w cpFile) (he : w.unhandled P = some e) :
    (P, e) ∈ (mainRun w cpFile csvFile).loggedErrors ∧
    P ∉ (mainRun w cpFile csvFile).checkpoint ∧
    (∀ Q ∈ poolsToProcess w cpFile, w.unhandled Q = none →
      Q ∈ (mainRun w cpFile csvFile).valuations ∧
      Q ∈ (mainRun w cpFile csvFile).checkpoint) := by
  have hPload : P ∉ (loadCheckpoint cpFile w.parseJson).1 := by
    simp only [poolsToProcess, List.mem_filter] at hP
    obtain ⟨-, hcon⟩ := hP
    simp only [Bool.not_eq_true'] at hcon
    simpa using hcon
  simp only [mainRun]
  refine ⟨?_, fun h => ?_, fun Q hQ hQu => ?_⟩
  · exact (foldl_processPool_processes w FROM_BLOCK w.latestBlock BATCH_SIZE
      (poolsToProcess w cpFile) _ P hP).2 e he
  · rcases (foldl_processPool_mem w FROM_BLOCK w.latestBlock BATCH_SIZE
        (poolsToProcess w cpFile) _).2.2.2.1 P h with h' | ⟨-, hu⟩
    · exact hPload h'
    · rw [he] at hu
      cases hu
  · exact (foldl_processPool_processes w FROM_BLOCK w.latestBlock BATCH_SIZE
      (poolsToProcess w cpFile) _ Q hQ).1 hQu

/-- C8: checkpoint load returns the empty set when the file is
absent, returns the empty set with a logged warning when the file
exists but cannot be parsed, and in the latter case the whole run
behaves exactly as if no prior state existed; load is a total
function, hence never fatal. -/
theorem claim_C8_load_non_fatal (p : String → Option (List String))
    (w : World) (s : String) (csvFile : Option String) :
    loadCheckpoint none p = ([], false) ∧
    (p s = none → loadCheckpoint (some s) p = ([], true)) ∧
    (w.parseJson s = none →
      mainRun w (some s) csvFile = mainRun w none csvFile) := by
  refine ⟨rfl, fun hp => ?_, fun hp => ?_⟩
  · simp [loadCheckpoint, hp]
  · simp [mainRun, poolsToProcess, loadCheckpoint, hp]

/-- C10: appending an empty record batch does not leave the
destination unchanged — it still appends a single newline (one blank
row) after creating the header when the file is absent; and the
orchestrator never triggers this, calling the sink only with a
non-empty batch. -/
theorem claim_C10_empty_sink_append :
    (∀ file, appendRecordsToCSV [] file =
      some ((Option.getD file CSV_HEADER) ++ "\n")) ∧
    (∀ (w : World) (cpFile csvFile : Option String) (call : List QRecord),
      call ∈ (mainRun w cpFile csvFile).sinkCalls → call ≠ []) := by
  refine ⟨fun file => ?_, fun w cpFile csvFile call hcall => ?_⟩
  · cases file <;> rfl
  · simp only [mainRun] at hcall
    rcases (foldl_processPool_mem w FROM_BLOCK w.latestBlock BATCH_SIZE
        (poolsToProcess w cpFile) _).2.2.2.2 call hcall with h' | ⟨hne, -⟩
    · simp at h'
    · exact hne

set_option maxHeartbeats 1000000 in
/-- C1: divergence witness for the valuation gate.  In
`worldGateDemo`, pool `P` has computed value 25000 (above the 20000
threshold) and pool `Q` has 10000 (below); the run performs holder
discovery only for `Q` and checkpoints `P` without any holder
discovery call — the source's skip condition `poolValue >= 20000` is
inverted relative to the claim, to the script's own header comment
("If so, it queries for LP token holders") and to its log message. -/
theorem claim_C1_valuation_gate_inverted :
    getLiquidityPoolValue worldGateDemo "P" 18 = 25000 ∧
    getLiquidityPoolValue worldGateDemo "Q" 18 = 10000 ∧
    (mainRun worldGateDemo none none).holderQueries = ["Q"] ∧
    (mainRun worldGateDemo none none).checkpoint = ["P", "Q"] := by
  norm_num +decide [mainRun, poolsToProcess, discoveredPools,
    getLPPairAddresses, queryFilterPaginated, qfpGo, jsSetDedup,
    worldGateDemo, FROM_BLOCK, BATCH_SIZE, processPool,
    getLiquidityPoolValue, getLPTokenUSDValue, getLPHolders,
    checkLPHolderValue, chvGo, fetchBalanceWithRetries, fbwrGo,
    isTimeoutError, appendRecordsToCSV, loadCheckpoint]

/-- Witness for C2: with checkpoint `["P"]` and `P` re-discovered,
the run does no work for `P` and only appends to the prior CSV. -/
theorem claim_C2_checkpointed_pool_skipped_witness :
    "P" ∈ (loadCheckpoint (some "cp") worldCheckpointDemo.parseJson).1 ∧
    ("P" ∉ (mainRun worldCheckpointDemo (some "cp") (some "hdr")).valuations ∧
      "P" ∉ (mainRun worldCheckpointDemo (some "cp") (some "hdr")).holderQueries ∧
      "P" ∉ (mainRun worldCheckpointDemo (some "cp") (some "hdr")).qualifyCalls ∧
      (∀ call ∈ (mainRun worldCheckpointDemo (some "cp")
          (some "hdr")).sinkCalls, ∀ r ∈ call, r.lpAddress ≠ "P") ∧
      (∀ content, (some "hdr" : Option String) = some content →
        ∃ tail, (mainRun worldCheckpointDemo (some "cp") (some "hdr")).csv =
          some (content ++ tail))) :=
  ⟨by simp [loadCheckpoint, worldCheckpointDemo],
    claim_C2_checkpointed_pool_skipped worldCheckpointDemo (some "cp")
      (some "hdr") "P" (by simp [loadCheckpoint, worldCheckpointDemo])⟩

/-- Witness for C7: pool `P` fails with `EACCES`, is logged and not
checkpointed, while pool `Q` is still processed. -/
theorem claim_C7_unhandled_pool_error_contained_witness :
    "P" ∈ poolsToProcess worldErrorDemo none ∧
    worldErrorDemo.unhandled "P" = some ⟨"EACCES"⟩ ∧
    (("P", (⟨"EACCES"⟩ : JsError)) ∈
        (mainRun worldErrorDemo none none).loggedErrors ∧
      "P" ∉ (mainRun worldErrorDemo none none).checkpoint ∧
      (∀ Q ∈ poolsToProcess worldErrorDemo none,
        worldErrorDemo.unhandled Q = none →
        Q ∈ (mainRun worldErrorDemo none none).valuations ∧
        Q ∈ (mainRun worldErrorDemo none none).checkpoint)) :=
  ⟨by norm_num +decide [poolsToProcess, discoveredPools, getLPPairAddresses,
      queryFilterPaginated, qfpGo, jsSetDedup, loadCheckpoint,
      worldErrorDemo, FROM_BLOCK, BATCH_SIZE],
    rfl,
    claim_C7_unhandled_pool_error_contained worldErrorDemo none none "P"
      ⟨"EACCES"⟩
      (by norm_num +decide [poolsToProcess, discoveredPools,
        getLPPairAddresses, queryFilterPaginated, qfpGo, jsSetDedup,
        loadCheckpoint, worldErrorDemo, FROM_BLOCK, BATCH_SIZE])
      rfl⟩

/-- Witness for C8: an unparsable checkpoint file loads as the empty
set with a warning, and the run equals a run with no checkpoint
file. -/
theorem claim_C8_load_non_fatal_witness :
    worldParseFailDemo.parseJson "junk" = none ∧
    loadCheckpoint (some "junk") worldParseFailDemo.parseJson = ([], true) ∧
    mainRun worldParseFailDemo (some "junk") none =
      mainRun worldParseFailDemo none none :=
  ⟨rfl,
    (claim_C8_load_non_fatal worldParseFailDemo.parseJson worldParseFailDemo
      "junk" none).2.1 rfl,
    (claim_C8_load_non_fatal worldParseFailDemo.parseJson worldParseFailDemo
      "junk" none).2.2 rfl⟩

set_option maxHeartbeats 1000000 in
/-- Witness for C10: a concrete run whose only sink call is a
non-empty batch. -/
theorem claim_C10_empty_sink_append_witness :
    ([⟨"Q", "h1", 1000, 5000⟩] : List QRecord) ∈
      (mainRun worldSinkDemo none none).sinkCalls ∧
    ([⟨"Q", "h1", 1000, 5000⟩] : List QRecord) ≠ [] :=
  ⟨by norm_num +decide [mainRun, poolsToProcess, discoveredPools,
      getLPPairAddresses, queryFilterPaginated, qfpGo, jsSetDedup,
      worldSinkDemo, FROM_BLOCK, BATCH_SIZE, processPool,
      getLiquidityPoolValue, getLPTokenUSDValue, getLPHolders,
      checkLPHolderValue, chvGo, fetchBalanceWithRetries, fbwrGo,
      isTimeoutError, appendRecordsToCSV, loadCheckpoint],
    claim_C10_empty_sink_append.2 worldSinkDemo none none _
      (by norm_num +decide [mainRun, poolsToProcess, discoveredPools,
        getLPPairAddresses, queryFilterPaginated, qfpGo, jsSetDedup,
        worldSinkDemo, FROM_BLOCK, BATCH_SIZE, processPool,
        getLiquidityPoolValue, getLPTokenUSDValue, getLPHolders,
        checkLPHolderValue, chvGo, fetchBalanceWithRetries, fbwrGo,
        isTimeoutError, appendRecordsToCSV, loadCheckpoint])⟩
